import Mathlib

/-!
Shallow embedding of the RedisLess core (src/src/lib.rs): the in-memory
type-tagged store (`RedisLess` with `set` / `get` / `del`), the connection
handler `handle_request`, and the lifecycle wait logic of
`Server::change_state` / `start` / `stop`.

Byte sequences are modelled as `List Nat`; the two `HashMap`s of the store
are modelled as duplicate-free association lists whose lookup semantics
match `HashMap::get` / `insert` / `remove`.
-/

/-- A byte string (`Vec<u8>` / `&[u8]` in the source). -/
abbrev Bytes := List Nat

/-- Lookup in an association list; models `HashMap::get`. -/
def assocGet {α : Type} (m : List (Bytes × α)) (k : Bytes) : Option α :=
  match m with
  | [] => none
  | p :: rest => if p.1 = k then some p.2 else assocGet rest k

/-- Remove a key from an association list; models `HashMap::remove`
(the removed value, when the source consults it, is fetched with `assocGet`). -/
def assocRemove {α : Type} (m : List (Bytes × α)) (k : Bytes) : List (Bytes × α) :=
  m.filter (fun p => decide (p.1 ≠ k))

/-- Insert/overwrite a binding; models `HashMap::insert`. -/
def assocInsert {α : Type} (m : List (Bytes × α)) (k : Bytes) (v : α) :
    List (Bytes × α) :=
  (k, v) :: assocRemove m k

/-- The per-key type tag (`enum DataType` in the source). -/
inductive DataType where
  | String
  | List
  | Set
  | Hash
deriving DecidableEq

/-- The store: a type index `data_mapper` and the string backing store
`string_store` (struct `RedisLess` in the source). -/
structure RedisLess where
  data_mapper : List (Bytes × DataType)
  string_store : List (Bytes × Bytes)
deriving DecidableEq

/-- `RedisLess::new`. -/
def RedisLess.new : RedisLess :=
  { data_mapper := [], string_store := [] }

/-- `RedisLess::set`: records the String tag and stores the value. -/
def RedisLess.set (r : RedisLess) (key value : Bytes) : RedisLess :=
  { data_mapper := assocInsert r.data_mapper key DataType.String,
    string_store := assocInsert r.string_store key value }

/-- `RedisLess::get`: consults only the string backing store. -/
def RedisLess.get (r : RedisLess) (key : Bytes) : Option Bytes :=
  assocGet r.string_store key

/-- `RedisLess::del`: consults the type index, and for a String-tagged key
removes the entry from the string backing store (the source never removes
the `data_mapper` entry); returns the new store and the removal count. -/
def RedisLess.del (r : RedisLess) (key : Bytes) : RedisLess × Nat :=
  match assocGet r.data_mapper key with
  | some DataType.String =>
    match assocGet r.string_store key with
    | some _ =>
      ({ r with string_store := assocRemove r.string_store key }, 1)
    | none => (r, 0)
  | some DataType.List => (r, 0)
  | some DataType.Set => (r, 0)
  | some DataType.Hash => (r, 0)
  | none => (r, 0)

/-- Modelled from the spec: the decoded RESP protocol value, a variant over
SimpleString, Error, Integer, BulkString, Array and Nil (the `resp` submodule
holding this enum is not among the sources; only the variant set matters to
the handler in `lib.rs`). -/
inductive RESP where
  | SimpleString (s : Bytes)
  | Error (s : Bytes)
  | Integer (i : Int)
  | BulkString (b : Bytes)
  | Array (xs : List RESP)
  | Nil

/-- Whether a RESP value is the Array variant. -/
def RESP.isArray : RESP → Bool
  | RESP.Array _ => true
  | _ => false

/-- Modelled from the spec: the command variants dispatched by the handler
(the `command` submodule holding this enum is not among the sources; the
handler in `lib.rs` matches exactly these five variants). Message payloads
are kept as bytes (the source formats them into the reply). -/
inductive Command where
  | Set (k v : Bytes)
  | Get (k : Bytes)
  | Del (k : Bytes)
  | NotSupported (m : Bytes)
  | Error (m : Bytes)
deriving DecidableEq

/-- Whether a command's handler branch mutates the store (`Set` and `Del`). -/
def Command.mutates : Command → Bool
  | Command.Set _ _ => true
  | Command.Del _ => true
  | _ => false

/-- Decimal digits of a natural number as ASCII bytes; models how
`format!` renders the `u32` returned by `del`. -/
def natDigits (n : Nat) : Bytes :=
  (Nat.toDigits 10 n).map Char.toNat

/-- Validity of a byte sequence as UTF-8; models the check performed by
`std::str::from_utf8` (continuation bytes are `0x80..=0xBF`, with the
restricted ranges after `0xE0`, `0xED`, `0xF0`, `0xF4`). -/
def utf8Valid : Bytes → Bool
  | [] => true
  | b :: rest =>
    if b ≤ 0x7F then utf8Valid rest
    else if 0xC2 ≤ b ∧ b ≤ 0xDF then
      match rest with
      | c1 :: rest1 => (0x80 ≤ c1 && c1 ≤ 0xBF) && utf8Valid rest1
      | [] => false
    else if b = 0xE0 then
      match rest with
      | c1 :: c2 :: rest2 =>
        (0xA0 ≤ c1 && c1 ≤ 0xBF) && (0x80 ≤ c2 && c2 ≤ 0xBF) && utf8Valid rest2
      | _ => false
    else if (0xE1 ≤ b ∧ b ≤ 0xEC) ∨ b = 0xEE ∨ b = 0xEF then
      match rest with
      | c1 :: c2 :: rest2 =>
        (0x80 ≤ c1 && c1 ≤ 0xBF) && (0x80 ≤ c2 && c2 ≤ 0xBF) && utf8Valid rest2
      | _ => false
    else if b = 0xED then
      match rest with
      | c1 :: c2 :: rest2 =>
        (0x80 ≤ c1 && c1 ≤ 0x9F) && (0x80 ≤ c2 && c2 ≤ 0xBF) && utf8Valid rest2
      | _ => false
    else if b = 0xF0 then
      match rest with
      | c1 :: c2 :: c3 :: rest3 =>
        (0x90 ≤ c1 && c1 ≤ 0xBF) && (0x80 ≤ c2 && c2 ≤ 0xBF) &&
          (0x80 ≤ c3 && c3 ≤ 0xBF) && utf8Valid rest3
      | _ => false
    else if 0xF1 ≤ b ∧ b ≤ 0xF3 then
      match rest with
      | c1 :: c2 :: c3 :: rest3 =>
        (0x80 ≤ c1 && c1 ≤ 0xBF) && (0x80 ≤ c2 && c2 ≤ 0xBF) &&
          (0x80 ≤ c3 && c3 ≤ 0xBF) && utf8Valid rest3
      | _ => false
    else if b = 0xF4 then
      match rest with
      | c1 :: c2 :: c3 :: rest3 =>
        (0x80 ≤ c1 && c1 ≤ 0x8F) && (0x80 ≤ c2 && c2 ≤ 0xBF) &&
          (0x80 ≤ c3 && c3 ≤ 0xBF) && utf8Valid rest3
      | _ => false
    else false

/-- The bytes `\r\n`. -/
def crlf : Bytes := [13, 10]

/-- The bytes of the generic reply `+OK\r\n`. -/
def okReply : Bytes := [43, 79, 75] ++ crlf

/-- The bytes of the reply `-ERR key does not exist\r\n`. -/
def keyNotExistReply : Bytes :=
  [45, 69, 82, 82, 32, 107, 101, 121, 32, 100, 111, 101, 115, 32, 110, 111,
   116, 32, 101, 120, 105, 115, 116] ++ crlf

/-- The bytes of `-ERR ` (the opening of the formatted error replies). -/
def errOpen : Bytes := [45, 69, 82, 82, 32]

/-- The observable outcome of one `handle_request` invocation: the store it
leaves behind, the socket writes it performed, and whether it panicked
(`panicked = true` models the `unwrap` aborting the thread before any
write). -/
structure HandleOutcome where
  store : RedisLess
  writes : List Bytes
  panicked : Bool
deriving DecidableEq

/-- The inner `match Command::parse(x)` dispatch of `handle_request`
(lines 77-106 of `lib.rs`), one branch per command variant. The `Get`
branch models `format!("+{}\r\n", std::str::from_utf8(value).unwrap())`:
on a non-UTF-8 value the `unwrap` panics, so no write happens. -/
def execute_command (r : RedisLess) (c : Command) : HandleOutcome :=
  match c with
  | Command.Set k v => ⟨r.set k v, [okReply], false⟩
  | Command.Get k =>
    match r.get k with
    | some value =>
      if utf8Valid value then ⟨r, [[43] ++ value ++ crlf], false⟩
      else ⟨r, [], true⟩
    | none => ⟨r, [keyNotExistReply], false⟩
  | Command.Del k => ⟨(r.del k).1, [[58] ++ natDigits (r.del k).2 ++ crlf], false⟩
  | Command.NotSupported m => ⟨r, [errOpen ++ m ++ crlf], false⟩
  | Command.Error m => ⟨r, [errOpen ++ m ++ crlf], false⟩

/-- `handle_request` (lines 65-114 of `lib.rs`), starting from the result of
`RedisProtocolParser::parse` on the filled buffer (the buffer-filling read
loop is socket I/O and the parser lives in the `resp` submodule absent from
the sources, so the parse result — `none` for a parse error — and the
`Command::parse` function are taken as arguments). Only a parsed Array is
dispatched; every other case falls through to the final `+OK\r\n` write. -/
def handle_request (r : RedisLess) (parsed : Option (RESP × Nat))
    (cmdParse : List RESP → Command) : HandleOutcome :=
  match parsed with
  | some (RESP.Array xs, _) => execute_command r (cmdParse xs)
  | some _ => ⟨r, [okReply], false⟩
  | none => ⟨r, [okReply], false⟩

/-- `enum ServerState` from `lib.rs`. -/
inductive ServerState where
  | Start
  | Started
  | Stop
  | Stopped
  | Timeout
  | Error (msg : String)
deriving DecidableEq

/-- The `post_change_to_state` table of `Server::change_state`
(lines 207-214 of `lib.rs`). -/
def post_change_to_state : ServerState → Option ServerState
  | ServerState.Start => some ServerState.Started
  | ServerState.Stop => some ServerState.Stopped
  | ServerState.Started => none
  | ServerState.Stopped => none
  | ServerState.Timeout => none
  | ServerState.Error _ => none

/-- The wait of `Server::change_state` (lines 223-230 of `lib.rs`):
`recv_timeout` yields at most one message (`recvd = none` models the
timeout), the `for` over that `Result` returns the message only on an exact
match with the expected confirmation, and everything else falls through to
`ServerState::Timeout`. -/
def change_state (change_to : ServerState) (recvd : Option ServerState) :
    ServerState :=
  match recvd with
  | some server_state =>
    if post_change_to_state change_to = some server_state then server_state
    else ServerState.Timeout
  | none => ServerState.Timeout

/-- `Server::start`, as a function of the message the wait receives. -/
def Server.start (recvd : Option ServerState) : ServerState :=
  change_state ServerState.Start recvd

/-- `Server::stop`, as a function of the message the wait receives. -/
def Server.stop (recvd : Option ServerState) : ServerState :=
  change_state ServerState.Stop recvd

/-- A store operation of the public API, for reachability statements. -/
inductive StoreOp where
  | set (k v : Bytes)
  | del (k : Bytes)

/-- Apply one store operation (the state part of `del`). -/
def applyOp (r : RedisLess) : StoreOp → RedisLess
  | StoreOp.set k v => r.set k v
  | StoreOp.del k => (r.del k).1

/-- Run a sequence of store operations from a state. -/
def runOps (r : RedisLess) : List StoreOp → RedisLess
  | [] => r
  | op :: rest => runOps (applyOp r op) rest

/-- The C4 invariant at one type-index entry: a String-tagged key has an
entry in the string backing store, and a key of any other tag has none
(its entry would live in the — unimplemented — store matching its tag). -/
def tagBacked (r : RedisLess) (p : Bytes × DataType) : Bool :=
  match p.2 with
  | DataType.String => (assocGet r.string_store p.1).isSome
  | _ => !(assocGet r.string_store p.1).isSome

/-- The C4 invariant: every key of the type index is backed by exactly the
store matching its tag. -/
def typeIndexBacked (r : RedisLess) : Bool :=
  r.data_mapper.all (tagBacked r)

/-- The converse-invariant condition at one string-store entry: its key
carries the String tag in the type index. -/
def taggedString (r : RedisLess) (p : Bytes × Bytes) : Bool :=
  match assocGet r.data_mapper p.1 with
  | some DataType.String => true
  | _ => false

/-- The converse invariant: every key of the string backing store carries
the String tag in the type index. -/
def stringStoreTagged (r : RedisLess) : Bool :=
  r.string_store.all (taggedString r)

theorem assocGet_remove_self {α : Type} (m : List (Bytes × α)) (k : Bytes) :
    assocGet (assocRemove m k) k = none := by
  induction m with
  | nil => rfl
  | cons p rest ih =>
    by_cases hpk : p.1 = k
    · simpa [assocRemove, List.filter, hpk] using ih
    · simpa [assocRemove, List.filter, hpk, assocGet] using ih

theorem assocGet_remove_ne {α : Type} (m : List (Bytes × α)) (k k' : Bytes)
    (h : k' ≠ k) : assocGet (assocRemove m k) k' = assocGet m k' := by
  induction m with
  | nil => rfl
  | cons p rest ih =>
    simp only [assocRemove, ne_eq, decide_not] at ih ⊢
    rw [List.filter_cons]
    by_cases hpk : p.1 = k
    · simp [hpk, assocGet, Ne.symm h, ih]
    · simp [hpk, assocGet, ih]

theorem assocGet_insert_self {α : Type} (m : List (Bytes × α)) (k : Bytes) (v : α) :
    assocGet (assocInsert m k v) k = some v := by
  simp [assocInsert, assocGet]

theorem assocGet_insert_ne {α : Type} (m : List (Bytes × α)) (k k' : Bytes) (v : α)
    (h : k' ≠ k) : assocGet (assocInsert m k v) k' = assocGet m k' := by
  have : k ≠ k' := fun hk => h hk.symm
  simp [assocInsert, assocGet, this]
  exact assocGet_remove_ne m k k' h

theorem assocGet_mem {α : Type} {m : List (Bytes × α)} {k : Bytes} {v : α}
    (h : assocGet m k = some v) : (k, v) ∈ m := by
  induction m with
  | nil => simp [assocGet] at h
  | cons p rest ih =>
    by_cases hpk : p.1 = k
    · simp [assocGet, hpk] at h
      obtain ⟨k1, v1⟩ := p
      simp_all
    · simp [assocGet, hpk] at h
      right
      exact ih h

theorem mem_assocRemove {α : Type} {m : List (Bytes × α)} {k : Bytes}
    {p : Bytes × α} (h : p ∈ assocRemove m k) : p ∈ m ∧ p.1 ≠ k := by
  simpa [assocRemove, List.mem_filter] using h

theorem del_state_cases (r : RedisLess) (k : Bytes) :
    (r.del k).1 = r ∨
      (r.del k).1 = { r with string_store := assocRemove r.string_store k } := by
  cases h1 : assocGet r.data_mapper k with
  | none => left; simp [RedisLess.del, h1]
  | some t =>
    cases t with
    | String =>
      cases h2 : assocGet r.string_store k with
      | none => left; simp [RedisLess.del, h1, h2]
      | some w => right; simp [RedisLess.del, h1, h2]
    | List => left; simp [RedisLess.del, h1]
    | Set => left; simp [RedisLess.del, h1]
    | Hash => left; simp [RedisLess.del, h1]

theorem del_data_mapper_eq (r : RedisLess) (k : Bytes) :
    (r.del k).1.data_mapper = r.data_mapper := by
  rcases del_state_cases r k with h | h <;> rw [h]

theorem execute_command_writes (r : RedisLess) (c : Command)
    (h : (execute_command r c).panicked = false) :
    (execute_command r c).writes.length = 1 := by
  cases c with
  | Set k v => rfl
  | Get k =>
    cases hg : r.get k with
    | some value =>
      by_cases hu : utf8Valid value = true
      · simp [execute_command, hg, hu]
      · simp [execute_command, hg, hu] at h
    | none => simp [execute_command, hg]
  | Del k => rfl
  | NotSupported m => rfl
  | Error m => rfl

theorem execute_command_store (r : RedisLess) (c : Command)
    (h : Command.mutates c = false) : (execute_command r c).store = r := by
  cases c with
  | Set k v => simp [Command.mutates] at h
  | Get k =>
    cases hg : r.get k with
    | some value =>
      by_cases hu : utf8Valid value = true <;> simp [execute_command, hg, hu]
    | none => simp [execute_command, hg]
  | Del k => simp [Command.mutates] at h
  | NotSupported m => rfl
  | Error m => rfl

theorem stringStoreTagged_preserved (r : RedisLess) (op : StoreOp)
    (hinv : stringStoreTagged r = true) :
    stringStoreTagged (applyOp r op) = true := by
  rw [stringStoreTagged, List.all_eq_true] at hinv
  rw [stringStoreTagged, List.all_eq_true]
  cases op with
  | set k v =>
    intro p hp
    simp only [applyOp, RedisLess.set, assocInsert] at hp
    rcases List.mem_cons.mp hp with hpk | hprest
    · subst hpk
      simp [taggedString, applyOp, RedisLess.set, assocGet_insert_self]
    · obtain ⟨hpm, hpne⟩ := mem_assocRemove hprest
      have hold := hinv p hpm
      rw [taggedString] at hold ⊢
      simp only [applyOp, RedisLess.set]
      rw [assocGet_insert_ne r.data_mapper k p.1 DataType.String hpne]
      exact hold
  | del k =>
    intro p hp
    rcases del_state_cases r k with hcase | hcase <;>
      simp only [applyOp, hcase] at hp ⊢
    · exact hinv p hp
    · obtain ⟨hpm, _⟩ := mem_assocRemove hp
      have hold := hinv p hpm
      rw [taggedString] at hold ⊢
      exact hold

theorem stringStoreTagged_runOps (ops : List StoreOp) (r : RedisLess)
    (hinv : stringStoreTagged r = true) :
    stringStoreTagged (runOps r ops) = true := by
  induction ops generalizing r with
  | nil => exact hinv
  | cons op rest ih => exact ih _ (stringStoreTagged_preserved r op hinv)

/-- C1: for every non-empty key and every value (arbitrary bytes, CRLF
included), `set` then `get` returns exactly the stored value. -/
theorem set_then_get_roundtrip (r : RedisLess) (k v : Bytes) (hk : k ≠ []) :
    (r.set k v).get k = some v := by
  simp [RedisLess.set, RedisLess.get, assocGet_insert_self]

theorem set_then_get_roundtrip_witness :
    (([107] : Bytes) ≠ []) ∧
      (RedisLess.new.set [107] [118, 0, 255, 13, 10]).get [107] =
        some [118, 0, 255, 13, 10] :=
  ⟨by decide,
    set_then_get_roundtrip RedisLess.new [107] [118, 0, 255, 13, 10] (by decide)⟩

/-- C2: serving GET for a key whose stored value is the non-UTF-8 byte 0xFF
panics in the unchecked `from_utf8(...).unwrap()` conversion before any
write, contradicting the claim that the serving path never panics and
echoes any byte value. -/
theorem get_serving_panics_on_non_utf8 :
    execute_command (RedisLess.new.set [107] [255]) (Command.Get [107]) =
      ⟨RedisLess.new.set [107] [255], [], true⟩ := by
  decide

/-- C3 fails as stated: `set` then `del` returns 1 but the key is still
present in the type index afterwards — `del` does not remove it from both
maps. -/
theorem del_leaves_type_index_entry :
    ((RedisLess.new.set [107] [120]).del [107]).2 = 1 ∧
      assocGet ((RedisLess.new.set [107] [120]).del [107]).1.data_mapper [107] =
        some DataType.String := by
  decide

/-- C3 (amended): `del` on a key absent from the type index returns 0;
`set` then `del` returns 1 and removes the key from the string backing
store (leaving its type-index entry in place), after which `get` returns
nothing and a second `del` returns 0; the return value is always 0 or 1. -/
theorem del_semantics (r : RedisLess) (k v : Bytes) :
    (assocGet r.data_mapper k = none → (r.del k).2 = 0) ∧
    ((r.set k v).del k).2 = 1 ∧
    (((r.set k v).del k).1.get k = none) ∧
    ((((r.set k v).del k).1.del k).2 = 0) ∧
    ((r.del k).2 = 0 ∨ (r.del k).2 = 1) := by
  refine ⟨?_, ?_, ?_, ?_, ?_⟩
  · intro h
    simp [RedisLess.del, h]
  · simp [RedisLess.del, RedisLess.set, assocGet_insert_self]
  · simp [RedisLess.del, RedisLess.set, RedisLess.get, assocGet_insert_self,
      assocGet_remove_self]
  · simp [RedisLess.del, RedisLess.set, assocGet_insert_self,
      assocGet_remove_self]
  · cases h1 : assocGet r.data_mapper k with
    | none => simp [RedisLess.del, h1]
    | some t =>
      cases t with
      | String =>
        cases h2 : assocGet r.string_store k with
        | none => simp [RedisLess.del, h1, h2]
        | some w => simp [RedisLess.del, h1, h2]
      | List => simp [RedisLess.del, h1]
      | Set => simp [RedisLess.del, h1]
      | Hash => simp [RedisLess.del, h1]

theorem del_semantics_witness :
    (assocGet RedisLess.new.data_mapper [1] = none) ∧
      (RedisLess.new.del [1]).2 = 0 ∧
      ((RedisLess.new.set [1] [2]).del [1]).2 = 1 :=
  ⟨by decide, (del_semantics RedisLess.new [1] [2]).1 (by decide),
    (del_semantics RedisLess.new [1] [2]).2.1⟩

/-- C4 fails as stated: the state after one `set` satisfies the type-index
invariant, and `del` of that key breaks it — the String tag survives with
no string-store entry. -/
theorem del_breaks_type_index_invariant :
    typeIndexBacked (RedisLess.new.set [0] [1]) = true ∧
      typeIndexBacked ((RedisLess.new.set [0] [1]).del [0]).1 = false := by
  decide

/-- C4 (amended): `set` preserves the type-index invariant and `get` does
not change the state; `del` leaves the type index unchanged and preserves
the invariant at every key other than the deleted one (at the deleted key
itself the String tag may survive with its string-store entry removed). -/
theorem type_index_invariant_amended (r : RedisLess) (k v : Bytes) :
    (typeIndexBacked r = true → typeIndexBacked (r.set k v) = true) ∧
    ((r.del k).1.data_mapper = r.data_mapper) ∧
    (typeIndexBacked r = true →
      ∀ p ∈ (r.del k).1.data_mapper, p.1 ≠ k →
        tagBacked (r.del k).1 p = true) := by
  refine ⟨?_, del_data_mapper_eq r k, ?_⟩
  · intro hinv
    rw [typeIndexBacked, List.all_eq_true] at hinv
    rw [typeIndexBacked, List.all_eq_true]
    intro p hp
    simp only [RedisLess.set, assocInsert] at hp
    rcases List.mem_cons.mp hp with hpk | hprest
    · subst hpk
      simp [tagBacked, RedisLess.set, assocGet_insert_self]
    · obtain ⟨hpm, hpne⟩ := mem_assocRemove hprest
      have hold := hinv p hpm
      obtain ⟨pk, pt⟩ := p
      cases pt <;>
        simp only [tagBacked, RedisLess.set] at hold ⊢ <;>
        rw [assocGet_insert_ne r.string_store k pk v hpne] <;>
        exact hold
  · intro hinv p hp hpk
    rw [typeIndexBacked, List.all_eq_true] at hinv
    rcases del_state_cases r k with hcase | hcase <;>
      rw [hcase] at hp ⊢
    · exact hinv p hp
    · have hpm : p ∈ r.data_mapper := hp
      have hold := hinv p hpm
      obtain ⟨pk, pt⟩ := p
      have hpk' : pk ≠ k := hpk
      cases pt <;>
        simp only [tagBacked] at hold ⊢ <;>
        rw [assocGet_remove_ne r.string_store k pk hpk'] <;>
        exact hold

theorem type_index_invariant_amended_witness :
    typeIndexBacked (RedisLess.new.set [2] [3]) = true ∧
      typeIndexBacked ((RedisLess.new.set [2] [3]).set [4] [5]) = true ∧
      ((RedisLess.new.set [2] [3]).del [7]).1.data_mapper =
        (RedisLess.new.set [2] [3]).data_mapper ∧
      (([2], DataType.String) ∈
        ((RedisLess.new.set [2] [3]).del [7]).1.data_mapper) ∧
      tagBacked ((RedisLess.new.set [2] [3]).del [7]).1
        ([2], DataType.String) = true :=
  ⟨by decide,
    (type_index_invariant_amended (RedisLess.new.set [2] [3]) [4] [5]).1 (by decide),
    (type_index_invariant_amended (RedisLess.new.set [2] [3]) [7] []).2.1,
    by decide,
    (type_index_invariant_amended (RedisLess.new.set [2] [3]) [7] []).2.2
      (by decide) ([2], DataType.String) (by decide) (by decide)⟩

/-- C5: the `change_state` wait returns the expected confirmation exactly
when the one message it receives is that confirmation, and an `Error`
received during the wait is never surfaced — the call returns `Timeout`. -/
theorem change_state_wait_exact_match (recvd : Option ServerState) (e : String) :
    (Server.start recvd = ServerState.Started ↔
      recvd = some ServerState.Started) ∧
    (Server.stop recvd = ServerState.Stopped ↔
      recvd = some ServerState.Stopped) ∧
    Server.start (some (ServerState.Error e)) = ServerState.Timeout ∧
    Server.stop (some (ServerState.Error e)) = ServerState.Timeout := by
  refine ⟨?_, ?_, rfl, rfl⟩ <;>
  · cases recvd with
    | none => simp [Server.start, Server.stop, change_state]
    | some s =>
      cases s <;>
        simp [Server.start, Server.stop, change_state, post_change_to_state]

/-- C6: a failed decode, or a decoded value that is not an Array, makes the
handler send exactly the generic `+OK\r\n` reply, leaving the store
unchanged. -/
theorem generic_ok_on_non_array (r : RedisLess) (f : List RESP → Command)
    (v : RESP) (n : Nat) :
    handle_request r none f = ⟨r, [okReply], false⟩ ∧
      (RESP.isArray v = false →
        handle_request r (some (v, n)) f = ⟨r, [okReply], false⟩) := by
  refine ⟨rfl, ?_⟩
  intro hv
  cases v <;> simp_all [RESP.isArray, handle_request]

theorem generic_ok_on_non_array_witness :
    RESP.isArray (RESP.Integer 5) = false ∧
      handle_request RedisLess.new (some (RESP.Integer 5, 0))
        (fun _ => Command.Error []) = ⟨RedisLess.new, [okReply], false⟩ :=
  ⟨rfl, (generic_ok_on_non_array RedisLess.new (fun _ => Command.Error [])
    (RESP.Integer 5) 0).2 rfl⟩

/-- C7 fails as stated: after `set` then `del`, the key still exists in the
type index tagged String, yet `get` returns nothing. -/
theorem tagged_string_key_get_none :
    assocGet ((RedisLess.new.set [5] [6]).del [5]).1.data_mapper [5] =
        some DataType.String ∧
      ((RedisLess.new.set [5] [6]).del [5]).1.get [5] = none := by
  decide

/-- C7 (amended): `get` returns a value iff the key has an entry in the
string backing store; in any state where every string-store key is
String-tagged (every reachable state), a key tagged with an unimplemented
type yields nothing from `get`; `del` on a key tagged List/Set/Hash
returns 0. -/
theorem get_del_unimplemented_tags (r : RedisLess) (k : Bytes) :
    (∀ v, r.get k = some v ↔ assocGet r.string_store k = some v) ∧
    (stringStoreTagged r = true → ∀ t, assocGet r.data_mapper k = some t →
      t ≠ DataType.String → r.get k = none) ∧
    (∀ t, assocGet r.data_mapper k = some t → t ≠ DataType.String →
      (r.del k).2 = 0) := by
  refine ⟨fun v => Iff.rfl, ?_, ?_⟩
  · intro hinv t ht htne
    cases hg : r.get k with
    | none => rfl
    | some v =>
      exfalso
      have hmem : (k, v) ∈ r.string_store := assocGet_mem hg
      rw [stringStoreTagged, List.all_eq_true] at hinv
      have htag := hinv (k, v) hmem
      rw [taggedString] at htag
      simp only [ht] at htag
      cases t <;> simp_all
  · intro t ht htne
    cases t with
    | String => exact absurd rfl htne
    | List => simp [RedisLess.del, ht]
    | Set => simp [RedisLess.del, ht]
    | Hash => simp [RedisLess.del, ht]

theorem get_del_unimplemented_tags_witness :
    stringStoreTagged ⟨[([9], DataType.List)], []⟩ = true ∧
      assocGet (RedisLess.data_mapper ⟨[([9], DataType.List)], []⟩) [9] =
        some DataType.List ∧
      DataType.List ≠ DataType.String ∧
      RedisLess.get ⟨[([9], DataType.List)], []⟩ [9] = none ∧
      (RedisLess.del ⟨[([9], DataType.List)], []⟩ [9]).2 = 0 :=
  ⟨by decide, by decide, by decide,
    (get_del_unimplemented_tags ⟨[([9], DataType.List)], []⟩ [9]).2.1
      (by decide) DataType.List (by decide) (by decide),
    (get_del_unimplemented_tags ⟨[([9], DataType.List)], []⟩ [9]).2.2
      DataType.List (by decide) (by decide)⟩

/-- C8 fails as stated: a `Get` dispatched for a key holding a non-UTF-8
value panics before any write, so that invocation performs zero socket
writes rather than exactly one. -/
theorem zero_writes_on_panicking_get :
    (handle_request (RedisLess.new.set [103] [254]) (some (RESP.Array [], 0))
        (fun _ => Command.Get [103])).writes = [] ∧
      (handle_request (RedisLess.new.set [103] [254]) (some (RESP.Array [], 0))
        (fun _ => Command.Get [103])).panicked = true := by
  decide

/-- C8 (amended): every invocation that does not panic performs exactly one
socket write (the panicking `Get` path performs none before aborting), and
the store is mutated only when the dispatched command is `Set` or `Del`:
it is left unchanged for `Get`, `NotSupported`, `Error`, non-Array values
and failed decodes. -/
theorem handler_effects (r : RedisLess) (parsed : Option (RESP × Nat))
    (f : List RESP → Command) :
    ((handle_request r parsed f).panicked = false →
      (handle_request r parsed f).writes.length = 1) ∧
    (∀ xs n, parsed = some (RESP.Array xs, n) →
      Command.mutates (f xs) = false → (handle_request r parsed f).store = r) ∧
    (∀ v n, parsed = some (v, n) → RESP.isArray v = false →
      (handle_request r parsed f).store = r) ∧
    (parsed = none → (handle_request r parsed f).store = r) := by
  refine ⟨?_, ?_, ?_, ?_⟩
  · intro hpan
    match parsed with
    | none => rfl
    | some (v, n) =>
      cases v <;>
        first
        | rfl
        | exact execute_command_writes r _ hpan
  · intro xs n hps hmut
    subst hps
    exact execute_command_store r _ hmut
  · intro v n hps hv
    subst hps
    cases v <;> simp_all [RESP.isArray, handle_request]
  · intro hps
    subst hps
    rfl

theorem handler_effects_witness :
    (handle_request RedisLess.new none (fun _ => Command.Error [])).panicked =
        false ∧
      (handle_request RedisLess.new none
        (fun _ => Command.Error [])).writes.length = 1 ∧
      (handle_request RedisLess.new none
        (fun _ => Command.Error [])).store = RedisLess.new :=
  ⟨rfl,
    (handler_effects RedisLess.new none (fun _ => Command.Error [])).1 rfl,
    (handler_effects RedisLess.new none (fun _ => Command.Error [])).2.2.2 rfl⟩

/-- C10: in every state reachable from the empty store by `set` and `del`
operations, every key of the string backing store carries the String tag in
the type index — the converse correspondence that makes `get` (which reads
only the string store) sound. -/
theorem reachable_string_store_tagged (ops : List StoreOp) :
    stringStoreTagged (runOps RedisLess.new ops) = true :=
  stringStoreTagged_runOps ops RedisLess.new (by decide)
